import Mathlib

/-!
Shallow embedding of the OCR bill-extraction pipeline of this repository:
`app/services/extraction_service.py` and `app/services/validation_service.py`.

Python floats are modelled as exact rationals (`ℚ`); Python dict access with
defaults and `float(...)` coercion is modelled by the `FieldVal` type below.
Comparisons that the source performs on a square root (the 3-sigma outlier
test) are modelled in the equivalent squared form, which is exact over `ℚ`.
-/

namespace BillOCR

/-- Value stored under a numeric dict key (`item_quantity`, `item_amount`,
`conf`).  `missing` covers an absent key and any falsy non-numeric value
(`None`, `""`, empty containers); `num q` is a value `float()` accepts (a
number or a numeric string), with exact value `q`; `nonNumeric` is a truthy
value `float()` rejects by raising. -/
inductive FieldVal where
  | missing
  | num (q : ℚ)
  | nonNumeric
deriving DecidableEq

/-- Python `float(item.get(key, 0) or 0)`: an absent key or falsy value gives
`0.0`; an accepted value gives its numeric value; a rejected value raises
(`none`). -/
def getNum : FieldVal → Option ℚ
  | .missing => some 0
  | .num q => some q
  | .nonNumeric => none

/-- Python `float(it.get("conf", 0.95))` wrapped in `try/except` defaulting to
`0.95`: an absent key defaults to `0.95`, a raising value is caught and
replaced by `0.95`, and an accepted value gives its numeric value. -/
def getConf : FieldVal → ℚ
  | .missing => 0.95
  | .num q => q
  | .nonNumeric => 0.95

/-- A parsed item dict as consumed by `validation_service`.  `item_name = none`
models an absent key; the truthiness test `not item.get("item_name")` is
`nameFalsy`. -/
structure VItem where
  item_name : Option String
  item_quantity : FieldVal
  item_amount : FieldVal
  conf : FieldVal
deriving DecidableEq

/-- Python truthiness of `item.get("item_name")`: falsy when the key is absent
or the value is the empty string. -/
def nameFalsy : Option String → Bool
  | none => true
  | some s => s = ""

/-- Embedding of `validate_line_item` (validation_service.py, lines 10-36).
Returns `(ok, confidence, issues)`. -/
def validate_line_item (item : VItem) : Bool × ℚ × List String :=
  match getNum item.item_quantity, getNum item.item_amount with
  | some qty, some amt =>
    let issues := (if qty ≤ 0 then ["non_positive_quantity"] else []) ++
      (if amt ≤ 0 then ["non_positive_amount"] else [])
    let conf : ℚ := 0.95
    let conf := if nameFalsy item.item_name then conf - 0.4 else conf
    let conf := if issues ≠ [] then conf - 0.2 * (issues.length : ℚ) else conf
    (issues.length == 0, max 0 (min 1 conf), issues)
  | _, _ => (false, 0, ["invalid_numbers"])

/-- Embedding of `detect_outlier_amounts` (validation_service.py, lines
39-60).  The source compares `abs(a - mean) > 3 * pstdev(amounts)` with
`pstdev = sqrt(sqdev / n)`; since both sides are nonnegative and `n > 0`,
this is equivalent to `n * (a - mean)^2 > 9 * sqdev`, the exact rational
form used here.  `stdev == 0` is equivalent to `sqdev = 0`. -/
def detect_outlier_amounts (items : List VItem) : List ℚ :=
  let amounts := items.filterMap (fun it => getNum it.item_amount)
  if amounts.length < 2 then []
  else
    let mean := amounts.sum / (amounts.length : ℚ)
    let sqdev := (amounts.map (fun a => (a - mean) ^ 2)).sum
    if sqdev = 0 then []
    else amounts.filter (fun a => 9 * sqdev < (amounts.length : ℚ) * (a - mean) ^ 2)

/-- Embedding of `compute_overall_confidence` (validation_service.py, lines
63-84).  The division cannot raise since the list is nonempty there. -/
def compute_overall_confidence (items : List VItem) : ℚ :=
  if items.isEmpty then 0
  else
    let confs := items.map (fun it => getConf it.conf)
    confs.sum / (confs.length : ℚ)

/-- One OCR fragment `{text, bbox, conf}`; the extraction pipeline reads only
`text`, `bbox[0]` (x) and `bbox[1]` (y). -/
structure Frag where
  text : String
  x : ℚ
  y : ℚ
deriving DecidableEq

/-- Stable insertion of `a` (earlier in the original order) before the first
element with a key not smaller, matching the stability of Python `sorted`. -/
def insertByKey (key : Frag → ℚ) (a : Frag) : List Frag → List Frag
  | [] => [a]
  | b :: l => if key a ≤ key b then a :: b :: l else b :: insertByKey key a l

/-- Python `sorted(l, key=...)` (stable). -/
def sortByKey (key : Frag → ℚ) : List Frag → List Frag
  | [] => []
  | a :: l => insertByKey key a (sortByKey key l)

/-- Walk of the y-sorted fragments in `_group_into_rows`; `current` holds the
open row in reverse placement order (head = last placed, i.e. `current[-1]`),
`rows` the closed rows.  A row is retained only when it has at least 2
fragments. -/
def rowsAux : List Frag → List Frag → List (List Frag) → List (List Frag)
  | [], current, rows =>
    if 2 ≤ current.length then rows ++ [current.reverse] else rows
  | it :: rest, [], rows => rowsAux rest [it] rows
  | it :: rest, prev :: cur, rows =>
    if |it.y - prev.y| < 25 then rowsAux rest (it :: prev :: cur) rows
    else rowsAux rest [it]
      (if 2 ≤ (prev :: cur).length then rows ++ [(prev :: cur).reverse] else rows)

/-- Embedding of `_group_into_rows` (extraction_service.py, lines 23-51),
with `y_thresh = 25`. -/
def _group_into_rows (ocr : List Frag) : List (List Frag) :=
  if ocr.isEmpty then []
  else rowsAux (sortByKey (fun it => it.y) ocr) [] []

/-- ASCII whitespace (the characters Python `str.strip` removes on the texts
this pipeline sees). -/
def isSpaceChar (c : Char) : Bool :=
  c == ' ' || c == '\t' || c == '\n' || c == '\r' || c == '\x0b' || c == '\x0c'

/-- Python `str.strip` on a character list: drop whitespace from both ends. -/
def trimChars (l : List Char) : List Char :=
  ((l.dropWhile isSpaceChar).reverse.dropWhile isSpaceChar).reverse

/-- Python `str.strip`. -/
def trimStr (s : String) : String := ⟨trimChars s.toList⟩

/-- Python `str.lower` on one character (ASCII range). -/
def lowerChar (c : Char) : Char :=
  if 65 ≤ c.toNat ∧ c.toNat ≤ 90 then Char.ofNat (c.toNat + 32) else c

/-- Lower-cased character list of a string (Python `str.lower`). -/
def lowerChars (s : String) : List Char := s.toList.map lowerChar

/-- Python `" ".join(...)` on character lists. -/
def joinSpace : List (List Char) → List Char
  | [] => []
  | [x] => x
  | x :: y :: l => x ++ ' ' :: joinSpace (y :: l)

/-- Does `needle` occur at the very start of `hay`? -/
def startsWith : List Char → List Char → Bool
  | [], _ => true
  | _ :: _, [] => false
  | a :: as, b :: bs => a == b && startsWith as bs

/-- Python substring containment `needle in hay` on character lists. -/
def containsSub (needle : List Char) : List Char → Bool
  | [] => needle.isEmpty
  | b :: bs => startsWith needle (b :: bs) || containsSub needle bs

/-- The header keyword set of `_is_header_row`. -/
def header_kw : List (List Char) :=
  ["item".toList, "product".toList, "description".toList, "name".toList,
   "qty".toList, "quantity".toList, "rate".toList, "price".toList,
   "amount".toList, "total".toList, "mrp".toList]

/-- The joined, lower-cased text of a row
(`" ".join(cell["text"].lower() for cell in row)`). -/
def rowText (row : List Frag) : List Char :=
  joinSpace (row.map (fun cell => lowerChars cell.text))

/-- Embedding of `_is_header_row` (extraction_service.py, lines 53-60): at
least 2 of the header keywords occur in the row text. -/
def _is_header_row (row : List Frag) : Bool :=
  decide (2 ≤ header_kw.countP (fun k => containsSub k (rowText row)))

/-- Characters removed by `re.sub(r"[₹$€£,\s]", "", text)` (with the ASCII
whitespace classes of `\s`). -/
def isStripped (c : Char) : Bool :=
  c == '₹' || c == '$' || c == '€' || c == '£' || c == ',' ||
  c == ' ' || c == '\t' || c == '\n' || c == '\r' || c == '\x0b' || c == '\x0c'

/-- Leftmost match of `\d+\.?\d*`: the maximal digit run starting at the first
digit of the string, then an optional dot followed by a further digit run.
Returns (integer-part digits, fraction digits). -/
def scanNumber : List Char → Option (List Char × List Char)
  | [] => none
  | c :: cs =>
    if c.isDigit then
      let ds := (c :: cs).takeWhile Char.isDigit
      match (c :: cs).dropWhile Char.isDigit with
      | '.' :: rest => some (ds, rest.takeWhile Char.isDigit)
      | _ => some (ds, [])
    else scanNumber cs

/-- Decimal value of a digit run. -/
def digitsToNat (l : List Char) : Nat :=
  l.foldl (fun n c => 10 * n + (c.toNat - 48)) 0

/-- Embedding of `_extract_number` (extraction_service.py, lines 115-123).
`float(m.group(1))` of a `\d+\.?\d*` match is the exact rational below; such
a string is always a valid float, so the `ValueError` branch is dead. -/
def _extract_number (text : String) : Option ℚ :=
  match scanNumber (text.toList.filter (fun c => !isStripped c)) with
  | none => none
  | some (ds, fs) =>
    some ((digitsToNat ds : ℚ) + (digitsToNat fs : ℚ) / 10 ^ fs.length)

/-- A candidate line item, the result dict of `_parse_row`. -/
structure CItem where
  item_name : String
  item_quantity : ℚ
  item_rate : ℚ
  item_amount : ℚ
deriving DecidableEq

/-- Python `" ".join(l)`. -/
def joinSpaceStr (l : List String) : String := ⟨joinSpace (l.map String.toList)⟩

/-- The stripped texts of a row in left-to-right order (`texts` in
`_parse_row`). -/
def rowTexts (row : List Frag) : List String :=
  (sortByKey (fun c => c.x) row).map (fun c => trimStr c.text)

/-- The per-fragment extraction results (`nums` in `_parse_row`). -/
def rowNums (row : List Frag) : List (Option ℚ) :=
  (rowTexts row).map _extract_number

/-- The numeric values found in a row, in left-to-right order
(`numeric_values` in `_parse_row`). -/
def rowNumericValues (row : List Frag) : List ℚ :=
  (rowNums row).filterMap id

/-- Embedding of `_parse_row` (extraction_service.py, lines 62-112).  The
negative indices `N[-1]`, `N[-2]`, `N[-3]` are read off the reversed numeric
value list; the match branches follow the `len(numeric_values)` cases of the
source in order (≥ 3, == 2, == 1). -/
def _parse_row (row : List Frag) : Option CItem :=
  let texts := rowTexts row
  let nums := rowNums row
  let numeric_values := nums.filterMap id
  if numeric_values.length < 1 then none
  else
    let first_num_idx := nums.findIdx (fun v => v.isSome)
    let item_name := trimStr (joinSpaceStr (texts.take first_num_idx))
    if item_name = "" ∨ item_name.length < 2 then none
    else
      match numeric_values.reverse with
      | [] => none
      | [amt] => some ⟨item_name, 1, amt, amt⟩
      | [amt, qty] => some ⟨item_name, qty, if 0 < qty then amt / qty else 0, amt⟩
      | amt :: rate :: qty :: _ => some ⟨item_name, qty, rate, amt⟩

/-- The exclusion keyword list of `_should_include`. -/
def exclude_kw : List (List Char) :=
  ["subtotal".toList, "sub-total".toList, "total".toList, "grand total".toList,
   "net total".toList, "cgst".toList, "sgst".toList, "igst".toList,
   "tax".toList, "gst".toList, "vat".toList, "discount".toList,
   "round off".toList, "amount due".toList]

/-- Embedding of `_should_include` (extraction_service.py, lines 126-136). -/
def _should_include (item : CItem) : Bool :=
  !(exclude_kw.any (fun k => containsSub k (lowerChars item.item_name)))

/-- Embedding of `parse_line_items` (extraction_service.py, lines 5-21).  A
returned dict is always nonempty, hence truthy, so `if item` is exactly the
`none` test. -/
def parse_line_items (ocr : List Frag) : List CItem :=
  let rows := (_group_into_rows ocr).filter (fun r => !_is_header_row r)
  (rows.filterMap _parse_row).filter _should_include

/-! Concrete inputs used by witnesses and counterexamples. -/

/-- Item list with amounts 10, 12, 9, 500 (Scenario C of the spec). -/
def scenarioCItems : List VItem :=
  [⟨some "a", .num 1, .num 10, .missing⟩,
   ⟨some "b", .num 1, .num 12, .missing⟩,
   ⟨some "c", .num 1, .num 9, .missing⟩,
   ⟨some "d", .num 1, .num 500, .missing⟩]

/-- An item whose `item_quantity` key is absent and whose amount is 5. -/
def itemMissingQty : VItem := ⟨some "x", .missing, .num 5, .missing⟩

/-- An item whose `item_quantity` is a truthy non-numeric value. -/
def itemBadQty : VItem := ⟨some "x", .nonNumeric, .num 5, .missing⟩

/-- The item parsed from `rowTwoNums`. -/
def appleItem : CItem := ⟨"Apple", 2, 15, 30⟩

/-- An item with quantity −1, positive amount and a non-empty name
(Scenario D of the spec). -/
def scenarioDItem : VItem := ⟨some "pen", .num (-1), .num 5, .missing⟩

/-- A row whose fragments yield exactly two numeric values. -/
def rowTwoNums : List Frag := [⟨"Apple", 0, 0⟩, ⟨"2", 10, 0⟩, ⟨"30", 20, 0⟩]

/-- A single-fragment input. -/
def singleFrag : List Frag := [⟨"x", 0, 0⟩]

/-- A row matching two header keywords. -/
def headerRow : List Frag := [⟨"Qty", 0, 0⟩, ⟨"Amount", 10, 0⟩]

/-- A row matching exactly one header keyword. -/
def qtyRow : List Frag := [⟨"Qty", 0, 0⟩]

/-- An extra fragment containing the header keyword `amount`. -/
def amountFrag : Frag := ⟨"Amount", 10, 0⟩

/-- A fragment with no header keyword. -/
def plainFrag : Frag := ⟨"stuff", 20, 0⟩

/-- Two-item list with explicit numeric confidences 0.5 and 0.9. -/
def confItemA : VItem := ⟨some "a", .num 1, .num 10, .num (1/2)⟩

/-- Second item of the confidence witness list. -/
def confItemB : VItem := ⟨some "b", .num 1, .num 12, .num (9/10)⟩

/-! Helper lemmas. -/

theorem two_mul_sum_le (a : ℚ) (l : List ℚ) :
    2 * a * l.sum ≤ (l.length : ℚ) * a ^ 2 + (l.map (fun d => d ^ 2)).sum := by
  induction l with
  | nil => simp
  | cons b t ih =>
    simp only [List.sum_cons, List.map_cons, List.length_cons]
    push_cast
    nlinarith [sq_nonneg (a - b)]

theorem sum_sq_le (l : List ℚ) :
    l.sum ^ 2 ≤ (l.length : ℚ) * (l.map (fun d => d ^ 2)).sum := by
  induction l with
  | nil => simp
  | cons b t ih =>
    simp only [List.sum_cons, List.map_cons, List.length_cons]
    push_cast
    nlinarith [two_mul_sum_le b t]

theorem sum_sq_nonneg (l : List ℚ) : 0 ≤ (l.map (fun d => d ^ 2)).sum := by
  induction l with
  | nil => simp
  | cons b t ih =>
    simp only [List.map_cons, List.sum_cons]
    nlinarith [sq_nonneg b]

/-- With at most 10 summands of total 0, no single summand's square can exceed
9 times the sum of all squares, scaled by the count: the extreme deviation is
at most `((n-1)/sqrt n) * sigma`, below `3 * sigma` for `n ≤ 10`. -/
theorem dev_sq_le (l : List ℚ) (hsum : l.sum = 0) (hlen : l.length ≤ 10)
    (x : ℚ) (hx : x ∈ l) :
    (l.length : ℚ) * x ^ 2 ≤ 9 * (l.map (fun d => d ^ 2)).sum := by
  obtain ⟨s, t, rfl⟩ := List.append_of_mem hx
  have hrest : (s ++ t).sum = -x := by
    simp only [List.sum_append, List.sum_cons] at hsum ⊢
    linarith
  have hCS := sum_sq_le (s ++ t)
  rw [hrest] at hCS
  have hQ : 0 ≤ ((s ++ t).map (fun d => d ^ 2)).sum := sum_sq_nonneg _
  have h9 : (s ++ t).length ≤ 9 := by
    have h10 : (s ++ x :: t).length ≤ 10 := hlen
    simp only [List.length_append, List.length_cons] at h10
    simp only [List.length_append]
    omega
  have hm : ((s ++ t).length : ℚ) ≤ 9 := by exact_mod_cast h9
  have hx2 : x ^ 2 ≤ ((s ++ t).length : ℚ) * ((s ++ t).map (fun d => d ^ 2)).sum := by
    rw [neg_sq] at hCS; exact hCS
  have hlen' : ((s ++ x :: t).length : ℚ) = ((s ++ t).length : ℚ) + 1 := by
    simp only [List.length_append, List.length_cons]
    push_cast
    ring
  have hsq : ((s ++ x :: t).map (fun d => d ^ 2)).sum
      = ((s ++ t).map (fun d => d ^ 2)).sum + x ^ 2 := by
    simp only [List.map_append, List.map_cons, List.sum_append, List.sum_cons]
    ring
  rw [hlen', hsq]
  nlinarith [mul_nonneg (by linarith : (0:ℚ) ≤ 9 - ((s ++ t).length : ℚ)) hQ,
    mul_nonneg (by linarith : (0:ℚ) ≤ 9 - ((s ++ t).length : ℚ)) (sq_nonneg x)]

/-- Sum of a list shifted by a constant. -/
theorem sum_map_sub (l : List ℚ) (c : ℚ) :
    (l.map (fun a => a - c)).sum = l.sum - (l.length : ℚ) * c := by
  induction l with
  | nil => simp
  | cons b t ih =>
    simp only [List.map_cons, List.sum_cons, List.length_cons, ih]
    push_cast
    ring

/-- On any input from which at most 10 amounts are parsed, the outlier
detector returns the empty list. -/
theorem detect_outlier_eq_nil (items : List VItem)
    (h : (items.filterMap (fun it => getNum it.item_amount)).length ≤ 10) :
    detect_outlier_amounts items = [] := by
  simp only [detect_outlier_amounts]
  set amounts := items.filterMap (fun it => getNum it.item_amount) with hA
  split
  · rfl
  next h2 =>
    split
    · rfl
    next h0 =>
      set mean := amounts.sum / (amounts.length : ℚ) with hmean
      rw [List.filter_eq_nil_iff]
      intro a ha
      simp only [decide_eq_true_eq, not_lt]
      have hn0 : (amounts.length : ℚ) ≠ 0 := by
        have h2' : 2 ≤ amounts.length := by omega
        have : amounts.length ≠ 0 := by omega
        exact_mod_cast this
      have hsum0 : (amounts.map (fun a => a - mean)).sum = 0 := by
        rw [sum_map_sub, hmean]
        field_simp
      have hmem : a - mean ∈ amounts.map (fun a => a - mean) :=
        List.mem_map_of_mem _ ha
      have hlen10 : (amounts.map (fun a => a - mean)).length ≤ 10 := by
        rw [List.length_map]; exact h
      have := dev_sq_le _ hsum0 hlen10 _ hmem
      rw [List.length_map, List.map_map] at this
      simpa [Function.comp] using this

/-- Every row the grouping walk ever emits has at least 2 fragments. -/
theorem rowsAux_min_size (l : List Frag) :
    ∀ current rows, (∀ r ∈ rows, 2 ≤ r.length) →
      ∀ r ∈ rowsAux l current rows, 2 ≤ r.length := by
  induction l with
  | nil =>
    intro current rows h r hr
    unfold rowsAux at hr
    split at hr
    · rcases List.mem_append.mp hr with h1 | h1
      · exact h r h1
      · simp only [List.mem_singleton] at h1
        subst h1
        rw [List.length_reverse]
        assumption
    · exact h r hr
  | cons it rest ih =>
    intro current rows h r hr
    cases current with
    | nil => exact ih [it] rows h r hr
    | cons prev cur =>
      rw [rowsAux] at hr
      split at hr
      · exact ih _ rows h r hr
      · refine ih [it] _ ?_ r hr
        intro r' hr'
        split at hr'
        · rcases List.mem_append.mp hr' with h1 | h1
          · exact h r' h1
          · simp only [List.mem_singleton] at h1
            subst h1
            rw [List.length_reverse]
            assumption
        · exact h r' hr'

/-- Concrete evaluation: `_extract_number("2") = 2.0`. -/
theorem extract_number_lit2 : _extract_number "2" = some 2 := by
  have h : _extract_number "2" = some (((2:ℕ):ℚ) + ((0:ℕ):ℚ) / 10 ^ (0:ℕ)) := rfl
  rw [h]; norm_num

/-- Concrete evaluation: `_extract_number("30") = 30.0`. -/
theorem extract_number_lit30 : _extract_number "30" = some 30 := by
  have h : _extract_number "30" = some (((30:ℕ):ℚ) + ((0:ℕ):ℚ) / 10 ^ (0:ℕ)) := rfl
  rw [h]; norm_num

/-- Concrete evaluation: `_extract_number("Apple")` finds no number. -/
theorem extract_number_apple : _extract_number "Apple" = none := rfl

/-- Concrete evaluation: the stripped texts of `rowTwoNums`. -/
theorem rowTexts_rowTwoNums : rowTexts rowTwoNums = ["Apple", "2", "30"] := rfl

/-- Concrete evaluation: the per-fragment numbers of `rowTwoNums`. -/
theorem rowNums_rowTwoNums : rowNums rowTwoNums = [none, some 2, some 30] := by
  simp only [rowNums, rowTexts_rowTwoNums, List.map_cons, List.map_nil,
    extract_number_apple, extract_number_lit2, extract_number_lit30]

/-- Concrete evaluation: the numeric values of `rowTwoNums`. -/
theorem rowNumericValues_rowTwoNums : rowNumericValues rowTwoNums = [2, 30] := by
  simp only [rowNumericValues, rowNums_rowTwoNums]
  rfl

set_option maxHeartbeats 1000000 in
/-- Concrete evaluation: `_parse_row` on `rowTwoNums` yields the Apple item
with rate `30 / 2 = 15`. -/
theorem parse_row_rowTwoNums : _parse_row rowTwoNums = some appleItem := by
  simp only [_parse_row, rowNums_rowTwoNums, rowTexts_rowTwoNums]
  norm_num [List.findIdx, List.findIdx.go, appleItem]
  rw [show trimStr (joinSpaceStr ["Apple"]) = "Apple" from rfl]
  refine ⟨by simp, ⟨by decide, by decide⟩, ?_⟩
  rw [show (List.filterMap id [some (2:ℚ), some 30]).reverse = [30, 2] from by rfl]
  norm_num

/-- A match at the start of a text still matches when the text is extended on
the right. -/
theorem startsWith_append (k t u : List Char) (h : startsWith k t = true) :
    startsWith k (t ++ u) = true := by
  induction k generalizing t with
  | nil => rfl
  | cons a as ih =>
    cases t with
    | nil => exact absurd h (by simp [startsWith])
    | cons b bs =>
      simp only [startsWith, Bool.and_eq_true] at h
      simp only [List.cons_append, startsWith, Bool.and_eq_true]
      exact ⟨h.1, ih bs h.2⟩

/-- Substring containment is preserved by extending the text on the right. -/
theorem containsSub_append (k t u : List Char) (h : containsSub k t = true) :
    containsSub k (t ++ u) = true := by
  induction t with
  | nil =>
    simp only [containsSub, List.isEmpty_iff] at h
    subst h
    cases u with
    | nil => rfl
    | cons b bs => simp [containsSub, startsWith]
  | cons b bs ih =>
    simp only [containsSub, Bool.or_eq_true] at h ⊢
    rcases h with h | h
    · exact Or.inl (startsWith_append k (b :: bs) u h)
    · exact Or.inr (ih h)

/-- Joining one more piece extends the joined text on the right. -/
theorem joinSpace_append_one (xs : List (List Char)) (y : List Char) (h : xs ≠ []) :
    joinSpace (xs ++ [y]) = joinSpace xs ++ ' ' :: y := by
  induction xs with
  | nil => exact absurd rfl h
  | cons x xt ih =>
    cases xt with
    | nil => rfl
    | cons x2 xt2 =>
      have ih' := ih (by simp)
      simp only [List.cons_append, joinSpace, List.append_eq] at ih' ⊢
      rw [ih']
      simp [List.append_assoc]

/-- Counting with a pointwise weaker predicate counts no more. -/
theorem countP_le_of_imp (l : List (List Char)) (p q : List Char → Bool)
    (h : ∀ a ∈ l, p a = true → q a = true) : l.countP p ≤ l.countP q := by
  induction l with
  | nil => simp
  | cons b t ih =>
    rw [List.countP_cons, List.countP_cons]
    have ht := ih (fun a ha => h a (List.mem_cons_of_mem b ha))
    by_cases hb : p b = true
    · rw [hb, h b (List.mem_cons_self b t) hb]
      omega
    · simp only [Bool.not_eq_true] at hb
      rw [hb]
      simp only [if_false, Bool.false_eq_true]
      omega

/-- Every number the extractor returns is nonnegative: the matched token is
an unsigned digit string with an optional unsigned fraction. -/
theorem extract_number_nonneg (t : String) (v : ℚ)
    (h : _extract_number t = some v) : 0 ≤ v := by
  unfold _extract_number at h
  cases hs : scanNumber (t.toList.filter fun c => !isStripped c) with
  | none => rw [hs] at h; exact absurd h (by simp)
  | some p =>
    obtain ⟨ds, fs⟩ := p
    rw [hs] at h
    simp only [Option.some.injEq] at h
    subst h
    positivity

/-- Every numeric value collected from a row is nonnegative. -/
theorem rowNumericValues_nonneg (row : List Frag) (v : ℚ)
    (hv : v ∈ rowNumericValues row) : 0 ≤ v := by
  simp only [rowNumericValues, rowNums, List.mem_filterMap, List.mem_map, id] at hv
  obtain ⟨o, ⟨t, _, rfl⟩, ho⟩ := hv
  exact extract_number_nonneg t v ho

/-- Every item the row interpreter produces has nonnegative quantity, rate
and amount. -/
theorem parse_row_nonneg (row : List Frag) (item : CItem)
    (h : _parse_row row = some item) :
    0 ≤ item.item_quantity ∧ 0 ≤ item.item_rate ∧ 0 ≤ item.item_amount := by
  have hnn : ∀ v ∈ rowNumericValues row, (0:ℚ) ≤ v := fun v hv =>
    rowNumericValues_nonneg row v hv
  simp only [_parse_row] at h
  rw [show List.filterMap id (rowNums row) = rowNumericValues row from rfl] at h
  split at h
  · exact absurd h (by simp)
  split at h
  · exact absurd h (by simp)
  split at h
  · exact absurd h (by simp)
  case _ amt heq =>
    simp only [Option.some.injEq] at h
    subst h
    have hm : amt ∈ rowNumericValues row := by
      rw [← List.mem_reverse, heq]; simp
    have := hnn amt hm
    exact ⟨by norm_num, this, this⟩
  case _ amt qty heq =>
    simp only [Option.some.injEq] at h
    subst h
    have hma : amt ∈ rowNumericValues row := by
      rw [← List.mem_reverse, heq]; simp
    have hmq : qty ∈ rowNumericValues row := by
      rw [← List.mem_reverse, heq]; simp
    refine ⟨hnn qty hmq, ?_, hnn amt hma⟩
    split
    · exact div_nonneg (hnn amt hma) (le_of_lt (by assumption))
    · exact le_refl 0
  case _ amt rate qty tl heq =>
    simp only [Option.some.injEq] at h
    subst h
    have hma : amt ∈ rowNumericValues row := by
      rw [← List.mem_reverse, heq]; simp
    have hmr : rate ∈ rowNumericValues row := by
      rw [← List.mem_reverse, heq]; simp
    have hmq : qty ∈ rowNumericValues row := by
      rw [← List.mem_reverse, heq]; simp
    exact ⟨hnn qty hmq, hnn rate hmr, hnn amt hma⟩

/-- Concrete evaluation: the three same-line fragments form one row. -/
theorem group_rowTwoNums : _group_into_rows rowTwoNums = [rowTwoNums] := by
  norm_num [_group_into_rows, rowTwoNums, sortByKey, insertByKey, rowsAux]

/-- Concrete evaluation: the full extraction pipeline on `rowTwoNums`. -/
theorem parse_line_items_rowTwoNums : parse_line_items rowTwoNums = [appleItem] := by
  simp only [parse_line_items, group_rowTwoNums]
  rw [show List.filter (fun r => !_is_header_row r) [rowTwoNums] = [rowTwoNums] from by
    simp [List.filter, (by decide : _is_header_row rowTwoNums = false)]]
  rw [show List.filterMap _parse_row [rowTwoNums] = [appleItem] from by
    simp only [List.filterMap_cons, parse_row_rowTwoNums, List.filterMap_nil]]
  simp [List.filter, (by decide : _should_include appleItem = true)]

/-! Claim theorems. -/

/-- C10: every item returned by `parse_line_items` has nonnegative quantity,
rate and amount: number extraction matches only unsigned digit sequences, and
the two-number rate division of nonnegative operands stays nonnegative. -/
theorem c10_parse_line_items_nonneg (ocr : List Frag) (item : CItem)
    (h : item ∈ parse_line_items ocr) :
    0 ≤ item.item_quantity ∧ 0 ≤ item.item_rate ∧ 0 ≤ item.item_amount := by
  simp only [parse_line_items, List.mem_filter, List.mem_filterMap] at h
  obtain ⟨⟨row, hrow, hparse⟩, _⟩ := h
  exact parse_row_nonneg row item hparse

/-- C10 witness: the pipeline output on the Apple row has nonnegative
quantity, rate and amount. -/
theorem c10_parse_line_items_nonneg_witness :
    appleItem ∈ parse_line_items rowTwoNums ∧
    (0 ≤ appleItem.item_quantity ∧ 0 ≤ appleItem.item_rate ∧ 0 ≤ appleItem.item_amount) :=
  have hm : appleItem ∈ parse_line_items rowTwoNums := by
    rw [parse_line_items_rowTwoNums]; simp
  ⟨hm, c10_parse_line_items_nonneg rowTwoNums appleItem hm⟩

/-- C8: the header filter is monotonic: appending a fragment to a row never
turns a header verdict into not-header (since every keyword match survives
extension of the row text), and appending a keyword-bearing fragment can
turn a not-header verdict into header. -/
theorem c8_header_filter_monotone :
    (∀ row f, _is_header_row row = true → _is_header_row (row ++ [f]) = true) ∧
    (∃ row f, containsSub "amount".toList (lowerChars f.text) = true ∧
      _is_header_row row = false ∧ _is_header_row (row ++ [f]) = true) := by
  constructor
  · intro row f h
    cases row with
    | nil => exact absurd h (by decide)
    | cons r0 rt =>
      simp only [_is_header_row, decide_eq_true_eq] at h ⊢
      have hrt : rowText ((r0 :: rt) ++ [f])
          = rowText (r0 :: rt) ++ ' ' :: lowerChars f.text := by
        simp only [rowText, List.map_append, List.map_cons, List.map_nil]
        exact joinSpace_append_one _ _ (by simp)
      rw [hrt]
      calc 2 ≤ (header_kw.countP (fun k => containsSub k (rowText (r0 :: rt)))) := h
        _ ≤ _ := countP_le_of_imp _ _ _
          (fun k _ hk => containsSub_append k _ _ hk)
  · exact ⟨qtyRow, amountFrag, by decide, by decide, by decide⟩

/-- C8 witness: the `Qty Amount` header row stays a header after appending an
unrelated fragment. -/
theorem c8_header_filter_monotone_witness :
    _is_header_row headerRow = true ∧ _is_header_row (headerRow ++ [plainFrag]) = true :=
  ⟨by decide, c8_header_filter_monotone.1 headerRow plainFrag (by decide)⟩

/-- C5: when the row interpreter finds exactly two numeric values `q` then
`a`, the produced item has quantity `q`, amount `a`, and rate `a / q` when
`q > 0` and `0` otherwise; the computation is total (never divides by zero,
never throws). -/
theorem c5_two_number_row_rate (row : List Frag) (q a : ℚ) (item : CItem)
    (h2 : rowNumericValues row = [q, a])
    (h : _parse_row row = some item) :
    item.item_quantity = q ∧ item.item_amount = a ∧
      item.item_rate = if 0 < q then a / q else 0 := by
  simp only [_parse_row] at h
  rw [show List.filterMap id (rowNums row) = rowNumericValues row from rfl, h2] at h
  split at h
  · exact absurd h (by simp)
  split at h
  · exact absurd h (by simp)
  simp only [List.reverse_cons, List.reverse_nil, List.nil_append, List.singleton_append,
    Option.some.injEq] at h
  subst h
  exact ⟨rfl, rfl, rfl⟩

/-- C5 witness: the row `["Apple", "2", "30"]` has numeric values `[2, 30]`
and parses to quantity 2, amount 30, rate 15. -/
theorem c5_two_number_row_rate_witness :
    rowNumericValues rowTwoNums = [2, 30] ∧ _parse_row rowTwoNums = some appleItem ∧
    (appleItem.item_quantity = 2 ∧ appleItem.item_amount = 30 ∧
      appleItem.item_rate = if (0:ℚ) < 2 then 30 / 2 else 0) :=
  ⟨rowNumericValues_rowTwoNums, parse_row_rowTwoNums,
    c5_two_number_row_rate rowTwoNums 2 30 appleItem
      rowNumericValues_rowTwoNums parse_row_rowTwoNums⟩

/-- C7: whenever the row interpreter returns an item rather than rejecting
the row, the item name is a non-empty string. -/
theorem c7_parse_row_name_nonempty (row : List Frag) (item : CItem)
    (h : _parse_row row = some item) : item.item_name ≠ "" := by
  simp only [_parse_row] at h
  split at h
  · exact absurd h (by simp)
  split at h
  · exact absurd h (by simp)
  next hname =>
    push_neg at hname
    split at h
    · exact absurd h (by simp)
    all_goals
      simp only [Option.some.injEq] at h
      subst h
      exact hname.1

/-- C7 witness: the Apple row parses to an item whose name is non-empty. -/
theorem c7_parse_row_name_nonempty_witness :
    _parse_row rowTwoNums = some appleItem ∧ appleItem.item_name ≠ "" :=
  ⟨parse_row_rowTwoNums,
    c7_parse_row_name_nonempty rowTwoNums appleItem parse_row_rowTwoNums⟩

/-- C6: the row builder never emits a row of fewer than 2 fragments, and on
inputs of 0 or 1 fragments (the empty input included) it returns the empty
row list. -/
theorem c6_row_builder_min_two_fragments (ocr : List Frag) :
    (∀ r ∈ _group_into_rows ocr, 2 ≤ r.length) ∧
    (ocr.length ≤ 1 → _group_into_rows ocr = []) := by
  constructor
  · intro r hr
    unfold _group_into_rows at hr
    split at hr
    · simp at hr
    · exact rowsAux_min_size _ [] [] (by simp) r hr
  · intro h
    match ocr with
    | [] => rfl
    | [f] => rfl
    | a :: b :: t => simp at h

/-- C6 witness: a single-fragment input produces no rows. -/
theorem c6_row_builder_min_two_fragments_witness :
    singleFrag.length ≤ 1 ∧ _group_into_rows singleFrag = [] :=
  ⟨by decide, (c6_row_builder_min_two_fragments singleFrag).2 (by decide)⟩

/-- C3 (counterexample): an item whose `item_quantity` key is missing is NOT
failed with `invalid_numbers`: the code turns the missing field into `0` and
reports `non_positive_quantity` instead (with confidence 0.75, not 0.0). -/
theorem c3_missing_field_not_invalid_numbers :
    validate_line_item itemMissingQty ≠ (false, 0, ["invalid_numbers"]) := by
  intro hEq
  have h2 := congrArg (fun r => r.2.2) hEq
  norm_num [validate_line_item, itemMissingQty, getNum] at h2
  exact absurd h2 (by decide)

/-- C3 (amended): for every item whose `item_quantity` or `item_amount` field
holds a truthy non-numeric value (one `float()` rejects), `validate_line_item`
fails immediately with `(ok = False, confidence = 0.0,
issues = ["invalid_numbers"])`, short-circuiting the non-positive checks; a
missing or falsy field is instead treated as 0. -/
theorem c3_non_numeric_fields_fail_immediately (item : VItem)
    (h : item.item_quantity = FieldVal.nonNumeric ∨ item.item_amount = FieldVal.nonNumeric) :
    validate_line_item item = (false, 0, ["invalid_numbers"]) := by
  rcases h with h | h
  · unfold validate_line_item
    rw [h]
    rfl
  · unfold validate_line_item
    rw [h]
    cases getNum item.item_quantity <;> rfl

/-- C3 witness: an item with a truthy non-numeric quantity is rejected with
exactly `invalid_numbers`. -/
theorem c3_non_numeric_fields_fail_immediately_witness :
    itemBadQty.item_quantity = FieldVal.nonNumeric ∧
    validate_line_item itemBadQty = (false, 0, ["invalid_numbers"]) :=
  ⟨rfl, c3_non_numeric_fields_fail_immediately itemBadQty (Or.inl rfl)⟩

/-- C4: for every item with numeric quantity and amount, `ok` is true iff the
issue list is empty; the confidence equals the clamp to `[0,1]` of
`0.95 − (0.4 if the name is falsy) − 0.2·(number of issues)`; and an item
with quantity −1, positive amount and non-falsy name yields `ok = False`,
issue `non_positive_quantity` and confidence exactly `0.75`. -/
theorem c4_validator_confidence_spec (item : VItem) (q a : ℚ)
    (hq : getNum item.item_quantity = some q) (ha : getNum item.item_amount = some a) :
    ((validate_line_item item).1 = true ↔ (validate_line_item item).2.2 = []) ∧
    (validate_line_item item).2.1 =
      max 0 (min 1 ((0.95 : ℚ) - (if nameFalsy item.item_name then 0.4 else 0) -
        0.2 * ((validate_line_item item).2.2.length : ℚ))) ∧
    (0 ≤ (validate_line_item item).2.1 ∧ (validate_line_item item).2.1 ≤ 1) ∧
    (q = -1 → 0 < a → nameFalsy item.item_name = false →
      (validate_line_item item).1 = false ∧
      "non_positive_quantity" ∈ (validate_line_item item).2.2 ∧
      (validate_line_item item).2.1 = 0.75) := by
  simp only [validate_line_item, hq, ha]
  set I := (if q ≤ 0 then ["non_positive_quantity"] else []) ++
    (if a ≤ 0 then ["non_positive_amount"] else []) with hI
  refine ⟨?_, ?_, ⟨le_max_left _ _, max_le (by norm_num) (min_le_left _ _)⟩, ?_⟩
  · simp [List.length_eq_zero]
  · by_cases hEmpty : I = []
    · simp only [hEmpty, ne_eq, not_true_eq_false, if_false, List.length_nil]
      by_cases hf : nameFalsy item.item_name = true
      · simp only [hf, if_true]; try norm_num
      · simp only [Bool.not_eq_true] at hf
        simp only [hf, Bool.false_eq_true, if_false]; try norm_num
    · simp only [ne_eq, hEmpty, not_false_eq_true, if_true]
      by_cases hf : nameFalsy item.item_name = true
      · simp only [hf, if_true]; try ring_nf
      · simp only [Bool.not_eq_true] at hf
        simp only [hf, Bool.false_eq_true, if_false]; try ring_nf
  · intro hq1 ha0 hf
    subst hq1
    have hIeq : I = ["non_positive_quantity"] := by
      rw [hI, if_pos (by norm_num), if_neg (not_le.mpr ha0)]
      simp
    simp only [hIeq, hf, List.length_cons, List.length_nil, if_false, Bool.false_eq_true,
      ne_eq, List.cons_ne_nil, not_false_eq_true, if_true]
    refine ⟨by decide, by simp, ?_⟩
    norm_num

/-- C9: the confidence aggregator is monotonic: replacing one item's numeric
`conf` value by a strictly higher value cannot decrease the aggregate. -/
theorem c9_aggregate_confidence_monotone (l1 l2 : List VItem) (it : VItem) (c c' : ℚ)
    (hc : it.conf = FieldVal.num c) (hlt : c < c') :
    compute_overall_confidence (l1 ++ it :: l2) ≤
      compute_overall_confidence (l1 ++ { it with conf := FieldVal.num c' } :: l2) := by
  simp only [compute_overall_confidence]
  rw [if_neg (by simp), if_neg (by simp)]
  simp only [List.map_append, List.map_cons, List.sum_append, List.sum_cons,
    List.length_append, List.length_cons, List.length_map]
  simp only [hc, getConf]
  gcongr

/-- C9 witness: raising the first item's confidence from 0.5 to 0.6 does not
decrease the two-item aggregate. -/
theorem c9_aggregate_confidence_monotone_witness :
    confItemA.conf = FieldVal.num (1/2) ∧ (1/2 : ℚ) < 3/5 ∧
    compute_overall_confidence ([] ++ confItemA :: [confItemB]) ≤
      compute_overall_confidence
        ([] ++ { confItemA with conf := FieldVal.num (3/5) } :: [confItemB]) :=
  ⟨rfl, by norm_num,
    c9_aggregate_confidence_monotone [] [confItemB] confItemA (1/2) (3/5) rfl (by norm_num)⟩

/-- C4 witness: Scenario D at quantity −1, amount 5, name `pen`. -/
theorem c4_validator_confidence_spec_witness :
    getNum scenarioDItem.item_quantity = some (-1) ∧
    getNum scenarioDItem.item_amount = some 5 ∧
    ((validate_line_item scenarioDItem).1 = false ∧
      "non_positive_quantity" ∈ (validate_line_item scenarioDItem).2.2 ∧
      (validate_line_item scenarioDItem).2.1 = 0.75) :=
  ⟨rfl, rfl,
    (c4_validator_confidence_spec scenarioDItem (-1) 5 rfl rfl).2.2.2 rfl (by norm_num) rfl⟩

/-- C1 (counterexample): on the items with amounts `[10, 12, 9, 500]`,
`detect_outlier_amounts` does NOT flag `500.0` — its deviation `367.25` is
below `3` population standard deviations (about `636`), so the claim that it
is flagged is false. -/
theorem c1_scenarioC_500_not_flagged : (500 : ℚ) ∉ detect_outlier_amounts scenarioCItems := by
  rw [detect_outlier_eq_nil scenarioCItems (by decide)]
  simp

/-- C1 (amended): on the items with amounts `[10, 12, 9, 500]`,
`detect_outlier_amounts` flags nothing at all: it returns the empty list
(neither `500.0` nor `10.0`, `12.0`, `9.0` is an outlier under the
3-population-sigma rule). -/
theorem c1_scenarioC_no_outliers : detect_outlier_amounts scenarioCItems = [] :=
  detect_outlier_eq_nil scenarioCItems (by decide)

/-- C2: for every input list from which at most 10 amounts are parsed,
`detect_outlier_amounts` returns the empty list: for fewer than 2 amounts it
returns empty explicitly, and for `2 ≤ n ≤ 10` no element's absolute
deviation from the population mean can exceed 3 population standard
deviations. -/
theorem c2_outlier_detector_empty_on_small_inputs (items : List VItem)
    (h : (items.filterMap (fun it => getNum it.item_amount)).length ≤ 10) :
    detect_outlier_amounts items = [] :=
  detect_outlier_eq_nil items h

/-- C2 witness: the scenario-C items parse to 4 amounts, and the detector
returns the empty list on them. -/
theorem c2_outlier_detector_empty_on_small_inputs_witness :
    (scenarioCItems.filterMap (fun it => getNum it.item_amount)).length ≤ 10 ∧
    detect_outlier_amounts scenarioCItems = [] :=
  ⟨by decide, c2_outlier_detector_empty_on_small_inputs scenarioCItems (by decide)⟩

end BillOCR
